import Mathlib

/- A verification development for the MentraOS Python SDK event manager
   (mentra_sdk/events.py) and resource utilities (mentra_sdk/utils.py).

   Modelling conventions:
   * a Python dict keyed by strings is an association list (`Map`);
     `EventManager._handlers` is a `defaultdict(list)`, so a key lookup on a
     missing key inserts an empty list before any method call on it;
   * handler function objects are identified by natural numbers (Python
     removes handlers from lists by object identity);
   * stateful methods are explicit state-passing functions; a method that can
     raise returns the (possibly already mutated) state together with an
     `Except` value describing normal return or the raised exception;
   * `asyncio.gather(..., return_exceptions=True)` is modelled by running
     every handler and collecting the failures as values. -/

namespace MentraSDK

/-- Association-list model of a Python dict from strings to lists. -/
abbrev Map (α : Type) := List (String × List α)

/-- Reading a key: the value of the first binding, `[]` when absent
    (callers that care about presence consult `dictMem` first). -/
def dictGet {α : Type} : Map α → String → List α
  | [], _ => []
  | p :: ps, k => if p.1 = k then p.2 else dictGet ps k

/-- Python `key in dict`. -/
def dictMem {α : Type} : Map α → String → Bool
  | [], _ => false
  | p :: ps, k => if p.1 = k then true else dictMem ps k

/-- Python `dict[key] = value`: updates the binding in place, or appends a
    new binding at the end (insertion order). -/
def dictSet {α : Type} : Map α → String → List α → Map α
  | [], k, v => [(k, v)]
  | p :: ps, k, v => if p.1 = k then (k, v) :: ps else p :: dictSet ps k v

/-- Python `del dict[key]`. -/
def dictDel {α : Type} : Map α → String → Map α
  | [], _ => []
  | p :: ps, k => if p.1 = k then ps else p :: dictDel ps k

def dictKeys {α : Type} (m : Map α) : List String := m.map Prod.fst

/-- Python `list.remove(x)` (the successful case): removes the first
    occurrence of `x`. -/
def removeFirst {α : Type} [DecidableEq α] : List α → α → List α
  | [], _ => []
  | x :: xs, a => if x = a then xs else x :: removeFirst xs a

/-- `EventManager._add_handler` (events.py:68-84): `self._handlers[event_type]
    .append(handler)`; the defaultdict access plus append amounts to binding
    the key to the old list (empty when absent) with the handler appended. -/
def add_handler {α : Type} (m : Map α) (e : String) (h : α) : Map α :=
  dictSet m e (dictGet m e ++ [h])

/-- The `cleanup` closure returned by `_add_handler` (events.py:86-95).
    It runs `self._handlers[event_type].remove(handler)` — on a missing key
    the defaultdict access first inserts an empty list — then deletes the
    binding if the list became empty; a `ValueError` from `remove` (handler
    not present) is caught and ignored, but the defaultdict insertion it may
    have caused persists. -/
def cleanup {α : Type} [DecidableEq α] (m : Map α) (e : String) (h : α) : Map α :=
  let m1 := if dictMem m e then m else m ++ [(e, [])]
  let l := dictGet m1 e
  if h ∈ l then
    let l2 := removeFirst l h
    if l2.length = 0 then dictDel (dictSet m1 e l2) e else dictSet m1 e l2
  else m1

/-- `EventManager.emit` (events.py:97-131). Returns early when the event type
    has no entry; otherwise takes a snapshot copy of the handler list, starts
    every handler (sync handlers via the executor, async ones directly) with
    the payload, and gathers all results with `return_exceptions=True`, so a
    failing handler contributes an error value instead of aborting the rest.
    The result is the list of performed invocations `(handler, payload)`
    paired with the list of collected handler failures; the `Except` layer
    records whether `emit` itself raised to its caller. -/
def emit {α : Type} (m : Map α) (e : String) (beh : α → Except String Unit) (d : Nat) :
    Except String (List (α × Nat) × List String) :=
  if dictMem m e = false then Except.ok ([], [])
  else
    let handlers := dictGet m e
    let invocations := handlers.map (fun h => (h, d))
    let errors := handlers.filterMap (fun h =>
      match beh h with
      | Except.error msg => some msg
      | Except.ok _ => none)
    Except.ok (invocations, errors)

/-- A registration / cleanup-token history over one `EventManager`:
    `register e h` is `_add_handler(e, h)` (or `on(e, h)`), and `invoke i`
    invokes the cleanup token returned by the `i`-th registration (a token
    closure captures exactly the event type and the handler object). -/
inductive EOp
  | register (e : String) (h : Nat)
  | invoke (i : Nat)

structure EMState where
  handlers : Map Nat
  tokens : List (String × Nat)
deriving DecidableEq

def emptyEM : EMState := ⟨[], []⟩

def stepEM (s : EMState) : EOp → EMState
  | EOp.register e h => ⟨add_handler s.handlers e h, s.tokens ++ [(e, h)]⟩
  | EOp.invoke i =>
    match s.tokens.get? i with
    | some (e, h) => ⟨cleanup s.handlers e h, s.tokens⟩
    | none => s

def runEM (ops : List EOp) : EMState :=
  ops.foldl stepEM emptyEM

/-- Python `str.isalpha()`: true iff the string is non-empty and every
    character is alphabetic (modelled by `Char.isAlpha`). -/
def pyStrIsAlpha (l : List Char) : Bool :=
  !l.isEmpty && l.all Char.isAlpha

/-- Python `code.split("-")`: splits on every hyphen; the empty string
    yields `[""]` and separators at the ends yield empty parts. -/
def splitOnDash : List Char → List (List Char)
  | [] => [[]]
  | c :: cs =>
    if c = '-' then [] :: splitOnDash cs
    else
      match splitOnDash cs with
      | [] => [[c]]
      | p :: ps => (c :: p) :: ps

/-- Re-joins the parts produced by `splitOnDash` with hyphens. -/
def joinDash : List (List Char) → List Char
  | [] => []
  | [p] => p
  | p :: ps => p ++ '-' :: joinDash ps

/-- `is_valid_language_code` (utils.py:298-321) on the character list of the
    code: false for the empty string; otherwise split on hyphens and accept
    one part of two alphabetic characters, or two such parts. -/
def pyIsValidLang (code : List Char) : Bool :=
  if code.isEmpty then false
  else
    match splitOnDash code with
    | [p] => p.length == 2 && pyStrIsAlpha p
    | [p, q] => p.length == 2 && pyStrIsAlpha p && q.length == 2 && pyStrIsAlpha q
    | _ => false

def is_valid_language_code (code : String) : Bool :=
  pyIsValidLang code.toList

/-- Modelled from the spec's words, for comparison with
    `is_valid_language_code`: the code is exactly two alphabetic characters,
    or two alphabetic characters, a hyphen and two alphabetic characters. -/
def specShapeChars : List Char → Bool
  | [a, b] => a.isAlpha && b.isAlpha
  | [a, b, c, d, e] => a.isAlpha && b.isAlpha && (c == '-') && d.isAlpha && e.isAlpha
  | _ => false

def specLangShape (code : String) : Bool :=
  specShapeChars code.toList

/-- `create_transcription_stream` (utils.py:324-337): raises `ValueError` on
    an invalid language code, otherwise returns the deterministic stream
    identifier. -/
def create_transcription_stream (language : String) : Except String String :=
  if is_valid_language_code language then
    Except.ok ("transcription:" ++ language)
  else Except.error ("Invalid language code: " ++ language)

/-- `create_translation_stream` (utils.py:340-356): validates the source
    language and then the target language, otherwise returns the
    deterministic stream identifier. -/
def create_translation_stream (source_language target_language : String) :
    Except String String :=
  if !is_valid_language_code source_language then
    Except.error ("Invalid source language code: " ++ source_language)
  else if !is_valid_language_code target_language then
    Except.error ("Invalid target language code: " ++ target_language)
  else Except.ok ("translation:" ++ source_language ++ ":" ++ target_language)

/-- The transcription-slot portion of an `EventManager`: the handler map and
    `self._last_transcription_cleanup`, which stores the cleanup token (the
    captured event type and handler) of the previous transcription
    registration, or `none`. -/
structure TEMState where
  handlers : Map Nat
  last_transcription_cleanup : Option (String × Nat)
deriving DecidableEq

def emptyTEM : TEMState := ⟨[], none⟩

/-- `EventManager.on_transcription_for_language` (events.py:147-171):
    validates the language code first and raises before touching any state;
    otherwise invokes the previous transcription cleanup token (if any),
    registers the handler under the computed stream type and stores the new
    cleanup token. -/
def on_transcription_for_language (s : TEMState) (language : String) (h : Nat) :
    TEMState × Except String Unit :=
  if is_valid_language_code language = false then
    (s, Except.error ("Invalid language code: " ++ language))
  else
    let m1 := match s.last_transcription_cleanup with
      | some (e, hh) => cleanup s.handlers e hh
      | none => s.handlers
    match create_transcription_stream language with
    | Except.error msg =>
        ({ handlers := m1, last_transcription_cleanup := s.last_transcription_cleanup },
          Except.error msg)
    | Except.ok st => (⟨add_handler m1 st h, some (st, h)⟩, Except.ok ())

def stepTranscription (s : TEMState) (c : String × Nat) : TEMState :=
  (on_transcription_for_language s c.1 c.2).1

/-- A sequence of `on_transcription_for_language` calls (language, handler)
    against a fresh manager; a call that raises leaves the state unchanged. -/
def runTranscriptionCalls (calls : List (String × Nat)) : TEMState :=
  calls.foldl stepTranscription emptyTEM

/-- Total number of handlers registered across all transcription event
    types. -/
def transcriptionHandlerCount (m : Map Nat) : Nat :=
  ((m.filter (fun p => p.1.startsWith "transcription:")).map (fun p => p.2.length)).sum

/-- The states reachable by transcription calls alone: either untouched, or
    exactly one handler registered, with the stored token matching it. -/
def temShape (s : TEMState) : Prop :=
  s.handlers = [] ∧ s.last_transcription_cleanup = none
    ∨ ∃ e h, s.handlers = [(e, [h])] ∧ s.last_transcription_cleanup = some (e, h)

/-- A cleanup callable recorded in `_cleanup_functions`: either a user
    function, the timer-cancelling closure created by `track_timer`, or the
    `cancel` closure created by `set_interval`. -/
inductive CleanupAct
  | user (id : Nat)
  | cancelTimer (t : Nat)
  | intervalCancel (i : Nat)
deriving DecidableEq

/-- `ResourceTracker` (utils.py:33-246).  `next_timer` models the event
    loop's allocation of fresh `TimerHandle`s for `call_later`; the weak set
    `_tasks` is modelled as a list of task identifiers. -/
structure ResourceTracker where
  cleanup_functions : List CleanupAct
  async_cleanup_functions : List Nat
  timers : List Nat
  tasks : List Nat
  disposed : Bool
  next_timer : Nat
deriving DecidableEq

def newResourceTracker : ResourceTracker := ⟨[], [], [], [], false, 0⟩

/-- `ResourceTracker.track` (utils.py:48-62): raises when disposed, before
    any mutation. -/
def track (s : ResourceTracker) (f : CleanupAct) :
    ResourceTracker × Except String CleanupAct :=
  if s.disposed then (s, Except.error "ResourceTracker has been disposed")
  else ({ s with cleanup_functions := s.cleanup_functions ++ [f] }, Except.ok f)

/-- `ResourceTracker.track_async` (utils.py:64-78). -/
def track_async (s : ResourceTracker) (f : Nat) :
    ResourceTracker × Except String Nat :=
  if s.disposed then (s, Except.error "ResourceTracker has been disposed")
  else ({ s with async_cleanup_functions := s.async_cleanup_functions ++ [f] },
    Except.ok f)

/-- `ResourceTracker.track_timer` (utils.py:98-114): appends the timer handle
    to `_timers` first and only then delegates to `track`, whose disposed
    check may raise — after the mutation. -/
def track_timer (s : ResourceTracker) (t : Nat) :
    ResourceTracker × Except String CleanupAct :=
  let s1 := { s with timers := s.timers ++ [t] }
  track s1 (CleanupAct.cancelTimer t)

/-- `ResourceTracker.track_task` (utils.py:116-127): adds the task to the
    weak set and returns it; there is no disposed check. -/
def track_task (s : ResourceTracker) (t : Nat) :
    ResourceTracker × Except String Nat :=
  ({ s with tasks := s.tasks ++ [t] }, Except.ok t)

/-- `ResourceTracker.set_timeout` (utils.py:129-142): `call_later` allocates
    a timer handle unconditionally, then the timer is tracked. -/
def set_timeout (s : ResourceTracker) :
    ResourceTracker × Except String Nat :=
  let t := s.next_timer
  let s1 := { s with next_timer := t + 1 }
  let r := track_timer s1 t
  (r.1, r.2.map (fun _ => t))

/-- `ResourceTracker.set_interval` (utils.py:144-167), collection view:
    schedules the first `interval_callback` firing via `set_timeout` and then
    tracks the `cancel` closure (identified by the allocated handle).  The
    firing behaviour itself is modelled by `intervalStep` below. -/
def set_interval (s : ResourceTracker) :
    ResourceTracker × Except String CleanupAct :=
  let r1 := set_timeout s
  match r1.2 with
  | Except.error msg => (r1.1, Except.error msg)
  | Except.ok t => track r1.1 (CleanupAct.intervalCancel t)

/-- An observable disposal effect: cancelling a timer or task, or running a
    (sync or async) cleanup action. -/
inductive TrackerEff
  | cancelTimer (t : Nat)
  | cancelTask (t : Nat)
  | runCleanup (f : CleanupAct)
  | runAsyncCleanup (f : Nat)
deriving DecidableEq

/-- `ResourceTracker.dispose` (utils.py:169-197): returns immediately when
    already disposed; otherwise sets the flag, cancels timers and tasks, runs
    all sync cleanup actions (each failure caught) and clears the lists (the
    weak task set is not cleared in the source). -/
def dispose (s : ResourceTracker) : ResourceTracker × List TrackerEff :=
  if s.disposed then (s, [])
  else
    ({ s with
        disposed := true
        cleanup_functions := []
        async_cleanup_functions := []
        timers := [] },
      s.timers.map TrackerEff.cancelTimer
        ++ s.tasks.map TrackerEff.cancelTask
        ++ s.cleanup_functions.map TrackerEff.runCleanup)

/-- `ResourceTracker.dispose_async` (utils.py:199-241): as `dispose`, but
    additionally awaits the cancelled tasks and runs the async cleanup
    actions. -/
def dispose_async (s : ResourceTracker) : ResourceTracker × List TrackerEff :=
  if s.disposed then (s, [])
  else
    ({ s with
        disposed := true
        cleanup_functions := []
        async_cleanup_functions := []
        timers := [] },
      s.timers.map TrackerEff.cancelTimer
        ++ s.tasks.map TrackerEff.cancelTask
        ++ s.cleanup_functions.map TrackerEff.runCleanup
        ++ s.async_cleanup_functions.map TrackerEff.runAsyncCleanup)

/-- The observable state of one interval created by `set_interval`
    (utils.py:144-167): the `cancelled` flag shared by `interval_callback`
    and `cancel`, whether a firing of `interval_callback` is scheduled, and
    how many times the user callback has executed. -/
structure IntervalState where
  cancelled : Bool
  pending : Bool
  execs : Nat
deriving DecidableEq

inductive IntervalEv
  | fire
  | cancel

/-- One scheduler event for an interval: `fire` runs the scheduled
    `interval_callback`, which does nothing when `cancelled` is set, and
    otherwise executes the user callback — which may itself invoke the
    cancel function, decided by `cb` per execution — and reschedules itself
    regardless; `cancel` is an invocation of the returned cancellation
    function and only sets the flag. -/
def intervalStep (cb : Nat → Bool) (s : IntervalState) : IntervalEv → IntervalState
  | IntervalEv.cancel => { s with cancelled := true }
  | IntervalEv.fire =>
    if s.pending = false then s
    else if s.cancelled then { s with pending := false }
    else { cancelled := cb s.execs, pending := true, execs := s.execs + 1 }

def intervalRun (cb : Nat → Bool) (s : IntervalState) (evs : List IntervalEv) :
    IntervalState :=
  evs.foldl (intervalStep cb) s

/-- State right after `set_interval`: not cancelled, first firing
    scheduled. -/
def intervalInit : IntervalState := ⟨false, true, 0⟩

/-- `CustomMessage` payload view: the two fields `on_custom_message`
    inspects. -/
structure CustomMessage where
  action : String
  payload : Nat
deriving DecidableEq

/-- The `message_handler` closure built by `on_custom_message`
    (events.py:262-267): runs the user handler with the message's `payload`
    field exactly when the message's `action` field equals the registered
    action; an invocation is recorded as (handler, received payload). -/
def message_handler (action : String) (h : Nat) (msg : CustomMessage) :
    Option (Nat × Nat) :=
  if msg.action = action then some (h, msg.payload) else none

/-- `EventManager.on_custom_message` (events.py:247-269): registers the
    wrapper closure — identified by its (action, handler) pair — under the
    fixed event type `"custom_message"`. -/
def on_custom_message (m : Map (String × Nat)) (action : String) (h : Nat) :
    Map (String × Nat) :=
  add_handler m "custom_message" (action, h)

/-- Delivering a `CustomMessage`: `emit("custom_message", msg)` runs every
    registered wrapper on the message; the matching wrappers contribute the
    user-handler invocations. -/
def emitCustomMessage (m : Map (String × Nat)) (msg : CustomMessage) :
    List (Nat × Nat) :=
  if dictMem m "custom_message" = false then []
  else (dictGet m "custom_message").filterMap (fun r => message_handler r.1 r.2 msg)

def registerCustomHandlers (rs : List (String × Nat)) : Map (String × Nat) :=
  rs.foldl (fun m r => on_custom_message m r.1 r.2) []

/- ### Basic lemmas about the dict model -/

theorem dictGet_dictSet_self {α : Type} (m : Map α) (k : String) (v : List α) :
    dictGet (dictSet m k v) k = v := by
  induction m with
  | nil => simp [dictSet, dictGet]
  | cons p ps ih =>
    by_cases hp : p.1 = k <;> simp [dictSet, dictGet, hp, ih]

theorem dictMem_dictSet_self {α : Type} (m : Map α) (k : String) (v : List α) :
    dictMem (dictSet m k v) k = true := by
  induction m with
  | nil => simp [dictSet, dictMem]
  | cons p ps ih =>
    by_cases hp : p.1 = k <;> simp [dictSet, dictMem, hp, ih]

theorem dictKeys_nil {α : Type} : dictKeys ([] : Map α) = [] := rfl

theorem dictKeys_cons {α : Type} (p : String × List α) (ps : Map α) :
    dictKeys (p :: ps) = p.1 :: dictKeys ps := rfl

theorem dictKeys_dictSet {α : Type} (m : Map α) (k : String) (v : List α) :
    dictKeys (dictSet m k v)
      = if dictMem m k then dictKeys m else dictKeys m ++ [k] := by
  induction m with
  | nil => simp [dictSet, dictMem, dictKeys_nil, dictKeys_cons]
  | cons p ps ih =>
    by_cases hp : p.1 = k
    · simp [dictSet, dictMem, dictKeys_cons, hp]
    · rcases h2 : dictMem ps k with _ | _ <;>
        simp [dictSet, dictMem, dictKeys_cons, hp, h2, ih]

theorem dictMem_iff_mem_dictKeys {α : Type} (m : Map α) (k : String) :
    dictMem m k = true ↔ k ∈ dictKeys m := by
  induction m with
  | nil => simp [dictMem, dictKeys_nil]
  | cons p ps ih =>
    by_cases hp : p.1 = k
    · simp [dictMem, dictKeys_cons, hp]
    · have hp2 : ¬(k = p.1) := fun he => hp he.symm
      simp [dictMem, dictKeys_cons, hp, hp2, ih]

theorem dictMem_dictDel_self {α : Type} (m : Map α) (k : String)
    (hnd : (dictKeys m).Nodup) : dictMem (dictDel m k) k = false := by
  induction m with
  | nil => simp [dictDel, dictMem]
  | cons p ps ih =>
    rw [dictKeys_cons] at hnd
    rcases List.nodup_cons.mp hnd with ⟨hp1, hp2⟩
    by_cases hp : p.1 = k
    · subst hp
      have hd : dictDel (p :: ps) p.1 = ps := by simp [dictDel]
      rw [hd]
      rcases h2 : dictMem ps p.1 with _ | _
      · rfl
      · exact absurd ((dictMem_iff_mem_dictKeys ps p.1).mp h2) hp1
    · simpa [dictDel, dictMem, hp] using ih hp2

theorem dictMem_of_mem_dictGet {α : Type} {m : Map α} {k : String} {x : α}
    (h : x ∈ dictGet m k) : dictMem m k = true := by
  induction m with
  | nil => simp [dictGet] at h
  | cons p ps ih =>
    by_cases hp : p.1 = k <;> simp [dictGet, dictMem, hp] at h ⊢
    exact ih h

theorem removeFirst_append_not_mem {α : Type} [DecidableEq α] {xs : List α} {a : α}
    (hx : a ∉ xs) : removeFirst (xs ++ [a]) a = xs := by
  induction xs with
  | nil => simp [removeFirst]
  | cons x t ih =>
    have hxa : ¬(x = a) := fun he => hx (by simp [he])
    have ht : a ∉ t := fun he => hx (by simp [he])
    simp [removeFirst, hxa, ih ht]

theorem dictKeys_add_handler_nodup {α : Type} {m : Map α} (e : String) (h : α)
    (hwf : (dictKeys m).Nodup) : (dictKeys (add_handler m e h)).Nodup := by
  have := dictKeys_dictSet m e (dictGet m e ++ [h])
  rcases hm : dictMem m e with _ | _
  · have hne : e ∉ dictKeys m := fun hc =>
      by simp [(dictMem_iff_mem_dictKeys m e).mpr hc] at hm
    simp only [add_handler, this, hm, if_neg]
    simp [List.nodup_append, hwf, hne]
  · simpa [add_handler, this, hm] using hwf

/-- Claim C1: an entry for an event type would exist in the handler map iff
    its handler list is non-empty, and invoking a cleanup token whose entry
    has been deleted would never re-create an empty entry.  The code violates
    this: registering a handler for `"e"` and invoking its cleanup token twice
    first deletes the entry and then — through the `defaultdict` access inside
    the token — re-creates `"e"` bound to the empty list. -/
theorem c1_stale_token_resurrects_empty_entry :
    (runEM [EOp.register "e" 0, EOp.invoke 0]).handlers = []
      ∧ (runEM [EOp.register "e" 0, EOp.invoke 0, EOp.invoke 0]).handlers = [("e", [])] := by
  constructor <;> rfl

/-- Claim C2: invoking a cleanup token a second time would leave the handler
    map unchanged, for every prior registration history.  The code violates
    this when the same handler function was registered twice for the same
    event type: `list.remove` matches the remaining occurrence, so the second
    invocation of the first token removes the second registration as well. -/
theorem c2_second_invocation_removes_duplicate :
    (runEM [EOp.register "e" 0, EOp.register "e" 0, EOp.invoke 0]).handlers = [("e", [0])]
      ∧ (runEM [EOp.register "e" 0, EOp.register "e" 0, EOp.invoke 0,
          EOp.invoke 0]).handlers = [] := by
  constructor <;> rfl

/-- Claim C4: with no handler registered for an event type, `emit` performs
    no invocation and returns without error; after registering handler `h`,
    `emit` invokes `h` exactly once with exactly the given payload; after
    additionally invoking the returned cleanup token, `emit` no longer
    invokes `h`. -/
theorem c4_emit_delivery (m : Map Nat) (e : String) (h d : Nat)
    (beh : Nat → Except String Unit)
    (hwf : (dictKeys m).Nodup) (hno : h ∉ dictGet m e) :
    (dictMem m e = false → emit m e beh d = Except.ok ([], []))
      ∧ (∃ inv errs, emit (add_handler m e h) e beh d = Except.ok (inv, errs)
          ∧ inv.count (h, d) = 1)
      ∧ (∃ inv errs, emit (cleanup (add_handler m e h) e h) e beh d
            = Except.ok (inv, errs)
          ∧ inv.count (h, d) = 0) := by
  have hm1 : dictMem (add_handler m e h) e = true := by
    simpa [add_handler] using dictMem_dictSet_self m e (dictGet m e ++ [h])
  have hget : dictGet (add_handler m e h) e = dictGet m e ++ [h] := by
    simpa [add_handler] using dictGet_dictSet_self m e (dictGet m e ++ [h])
  have hnotin : ((h : Nat), d) ∉ (dictGet m e).map (fun x => (x, d)) := by
    intro hc
    rcases List.mem_map.mp hc with ⟨x, hx, hxe⟩
    injection hxe with h1 h2
    exact hno (h1 ▸ hx)
  refine ⟨fun hmem => by simp [emit, hmem], ?_, ?_⟩
  · refine ⟨(dictGet m e ++ [h]).map (fun x => (x, d)),
      (dictGet m e ++ [h]).filterMap (fun y => match beh y with
        | Except.error msg => some msg
        | Except.ok _ => none),
      by simp [emit, hm1, hget], ?_⟩
    rw [List.map_append, List.count_append]
    rw [List.count_eq_zero.mpr hnotin]
    simp
  · have hrf : removeFirst (dictGet m e ++ [h]) h = dictGet m e :=
      removeFirst_append_not_mem hno
    rcases hcase : dictGet m e with _ | ⟨x, xs⟩
    · have hstate : cleanup (add_handler m e h) e h
          = dictDel (dictSet (add_handler m e h) e []) e := by
        simp [cleanup, hm1, hget, hcase, removeFirst]
      have hkeys : (dictKeys (add_handler m e h)).Nodup :=
        dictKeys_add_handler_nodup e h hwf
      have hkeys2 : dictKeys (dictSet (add_handler m e h) e [])
          = dictKeys (add_handler m e h) := by
        rw [dictKeys_dictSet]
        simp [hm1]
      have hmd : dictMem (dictDel (dictSet (add_handler m e h) e []) e) e = false :=
        dictMem_dictDel_self _ _ (by rw [hkeys2]; exact hkeys)
      exact ⟨[], [], by simp [hstate, emit, hmd], by simp⟩
    · have hne : ¬((removeFirst (dictGet m e ++ [h]) h).length = 0) := by
        rw [hrf, hcase]
        simp
      have hstate : cleanup (add_handler m e h) e h
          = dictSet (add_handler m e h) e (dictGet m e) := by
        simp only [cleanup, hm1, if_true, hget]
        rw [if_pos (by rw [hget] at *; simp)]
        rw [if_neg (by rw [hrf]; rw [hcase]; simp)]
        rw [hrf]
      have hm2 : dictMem (dictSet (add_handler m e h) e (dictGet m e)) e = true :=
        dictMem_dictSet_self _ _ _
      have hg2 : dictGet (dictSet (add_handler m e h) e (dictGet m e)) e = dictGet m e :=
        dictGet_dictSet_self _ _ _
      refine ⟨(dictGet m e).map (fun x => (x, d)),
        (dictGet m e).filterMap (fun y => match beh y with
          | Except.error msg => some msg
          | Except.ok _ => none),
        by simp [hstate, emit, hm2, hg2], ?_⟩
      exact List.count_eq_zero.mpr hnotin

/-- Witness for `c4_emit_delivery` on the empty manager, event `"e"`,
    handler `0` and payload `5`. -/
theorem c4_emit_delivery_witness :
    (dictMem ([] : Map Nat) "e" = false →
        emit ([] : Map Nat) "e" (fun _ => Except.ok ()) 5 = Except.ok ([], []))
      ∧ (∃ inv errs, emit (add_handler ([] : Map Nat) "e" 0) "e"
            (fun _ => Except.ok ()) 5 = Except.ok (inv, errs)
          ∧ inv.count (0, 5) = 1)
      ∧ (∃ inv errs, emit (cleanup (add_handler ([] : Map Nat) "e" 0) "e" 0) "e"
            (fun _ => Except.ok ()) 5 = Except.ok (inv, errs)
          ∧ inv.count (0, 5) = 0) :=
  c4_emit_delivery [] "e" 0 5 (fun _ => Except.ok ())
    (by simp [dictKeys_nil]) (by simp [dictGet])

/-- Claim C5: even when some handlers fail (their `beh` result is an error),
    `emit` still returns normally, its invocation list is the full snapshot
    of the handler list — so every sibling of a failing handler is invoked —
    and in particular any registered handler `hh` is invoked with the
    payload. -/
theorem c5_handler_failure_isolated (m : Map Nat) (e : String)
    (beh : Nat → Except String Unit) (d hh : Nat)
    (hmem : hh ∈ dictGet m e) :
    ∃ errs, emit m e beh d
        = Except.ok ((dictGet m e).map (fun x => (x, d)), errs)
      ∧ (hh, d) ∈ (dictGet m e).map (fun x => (x, d)) := by
  have hm : dictMem m e = true := dictMem_of_mem_dictGet hmem
  exact ⟨(dictGet m e).filterMap (fun y => match beh y with
      | Except.error msg => some msg
      | Except.ok _ => none),
    by simp [emit, hm], List.mem_map_of_mem _ hmem⟩

/-- Witness for `c5_handler_failure_isolated`: three handlers for `"e"`, the
    middle one raising; handler `2` is still invoked with payload `9` and
    `emit` returns normally. -/
theorem c5_handler_failure_isolated_witness :
    ∃ errs, emit [("e", [0, 1, 2])] "e"
        (fun x => if x = 1 then Except.error "boom" else Except.ok ()) 9
        = Except.ok ((dictGet [("e", [0, 1, 2])] "e").map (fun x => (x, 9)), errs)
      ∧ ((2 : Nat), (9 : Nat)) ∈ (dictGet [("e", [0, 1, 2])] "e").map (fun x => (x, 9)) :=
  c5_handler_failure_isolated [("e", [0, 1, 2])] "e"
    (fun x => if x = 1 then Except.error "boom" else Except.ok ()) 9 2
    (by simp [dictGet])

/- ### Lemmas about language-code validation -/

theorem splitOnDash_ne_nil (l : List Char) : splitOnDash l ≠ [] := by
  cases l with
  | nil => simp [splitOnDash]
  | cons c cs =>
    simp only [splitOnDash]
    by_cases hc : c = '-'
    · simp [hc]
    · rw [if_neg hc]
      cases h : splitOnDash cs with
      | nil => simp
      | cons p ps => simp

theorem joinDash_cons_cons (p q : List Char) (ps : List (List Char)) :
    joinDash (p :: q :: ps) = p ++ '-' :: joinDash (q :: ps) := rfl

theorem joinDash_splitOnDash (l : List Char) : joinDash (splitOnDash l) = l := by
  induction l with
  | nil => rfl
  | cons c cs ih =>
    by_cases hc : c = '-'
    · subst hc
      have hsplit : splitOnDash ('-' :: cs) = [] :: splitOnDash cs := by
        simp [splitOnDash]
      rw [hsplit]
      cases h : splitOnDash cs with
      | nil => exact absurd h (splitOnDash_ne_nil cs)
      | cons p ps =>
        rw [h] at ih
        rw [joinDash_cons_cons, ih]
        rfl
    · simp only [splitOnDash, if_neg hc]
      cases h : splitOnDash cs with
      | nil => exact absurd h (splitOnDash_ne_nil cs)
      | cons p ps =>
        rw [h] at ih
        cases ps with
        | nil =>
          have hp : p = cs := ih
          simp [joinDash, hp]
        | cons q qs =>
          rw [joinDash_cons_cons] at ih ⊢
          rw [List.cons_append, ih]

theorem isAlpha_ne_dash {c : Char} (h : c.isAlpha = true) : ¬(c = '-') := by
  intro he
  subst he
  exact absurd h (by decide)

theorem pyIsValidLang_iff_specShapeChars (l : List Char) :
    pyIsValidLang l = true ↔ specShapeChars l = true := by
  constructor
  · intro h
    have hjoin := joinDash_splitOnDash l
    by_cases hemp : l.isEmpty
    · simp [pyIsValidLang, hemp] at h
    simp only [pyIsValidLang, hemp, Bool.false_eq_true, if_false] at h
    rcases hs : splitOnDash l with _ | ⟨p, _ | ⟨q, _ | ⟨r, rs⟩⟩⟩
    · exact absurd hs (splitOnDash_ne_nil l)
    · rw [hs] at h hjoin
      have hpl : p = l := by simpa [joinDash] using hjoin
      subst hpl
      simp only [Bool.and_eq_true, beq_iff_eq, pyStrIsAlpha, List.all_eq_true] at h
      rcases List.length_eq_two.mp h.1 with ⟨a, b, rfl⟩
      have ha : a.isAlpha = true := h.2.2 a (by simp)
      have hb : b.isAlpha = true := h.2.2 b (by simp)
      simp [specShapeChars, ha, hb]
    · rw [hs] at h hjoin
      have hpl : p ++ '-' :: q = l := by simpa [joinDash_cons_cons, joinDash] using hjoin
      simp only [Bool.and_eq_true, beq_iff_eq, pyStrIsAlpha, List.all_eq_true] at h
      obtain ⟨⟨⟨hp2, hpne, hpall⟩, hq2⟩, hqne, hqall⟩ := h
      rcases List.length_eq_two.mp hp2 with ⟨a, b, rfl⟩
      rcases List.length_eq_two.mp hq2 with ⟨x, y, rfl⟩
      have ha : a.isAlpha = true := hpall a (by simp)
      have hb : b.isAlpha = true := hpall b (by simp)
      have hx : x.isAlpha = true := hqall x (by simp)
      have hy : y.isAlpha = true := hqall y (by simp)
      rw [← hpl]
      simp [specShapeChars, ha, hb, hx, hy]
    · rw [hs] at h
      simp at h
  · intro h
    rcases l with _ | ⟨a, _ | ⟨b, _ | ⟨c, _ | ⟨d, _ | ⟨e, _ | ⟨f, fs⟩⟩⟩⟩⟩⟩
    · simp [specShapeChars] at h
    · simp [specShapeChars] at h
    · simp only [specShapeChars, Bool.and_eq_true] at h
      have ha := isAlpha_ne_dash h.1
      have hb := isAlpha_ne_dash h.2
      simp [pyIsValidLang, splitOnDash, ha, hb, pyStrIsAlpha, h.1, h.2]
    · simp [specShapeChars] at h
    · simp [specShapeChars] at h
    · simp only [specShapeChars, Bool.and_eq_true, beq_iff_eq] at h
      obtain ⟨⟨⟨⟨ha, hb⟩, hc⟩, hd⟩, he⟩ := h
      subst hc
      have ha2 := isAlpha_ne_dash ha
      have hb2 := isAlpha_ne_dash hb
      have hd2 := isAlpha_ne_dash hd
      have he2 := isAlpha_ne_dash he
      simp [pyIsValidLang, splitOnDash, ha2, hb2, hd2, he2, pyStrIsAlpha,
        ha, hb, hd, he]
    · simp [specShapeChars] at h

/-- Claim C9: `is_valid_language_code` accepts exactly the codes that are two
    alphabetic characters, optionally followed by a hyphen and two alphabetic
    characters; `create_transcription_stream` and `create_translation_stream`
    raise a validation error exactly when a code is invalid and otherwise
    return the deterministic identifiers. -/
theorem c9_language_code_validation (s lang src tgt : String) :
    (is_valid_language_code s = true ↔ specLangShape s = true)
      ∧ (is_valid_language_code lang = false →
          create_transcription_stream lang
            = Except.error ("Invalid language code: " ++ lang))
      ∧ (is_valid_language_code lang = true →
          create_transcription_stream lang = Except.ok ("transcription:" ++ lang))
      ∧ (is_valid_language_code src = false →
          create_translation_stream src tgt
            = Except.error ("Invalid source language code: " ++ src))
      ∧ (is_valid_language_code src = true → is_valid_language_code tgt = false →
          create_translation_stream src tgt
            = Except.error ("Invalid target language code: " ++ tgt))
      ∧ (is_valid_language_code src = true → is_valid_language_code tgt = true →
          create_translation_stream src tgt
            = Except.ok ("translation:" ++ src ++ ":" ++ tgt)) := by
  refine ⟨pyIsValidLang_iff_specShapeChars s.toList,
    fun h1 => by simp [create_transcription_stream, h1],
    fun h1 => by simp [create_transcription_stream, h1],
    fun h1 => by simp [create_translation_stream, h1],
    fun h1 h2 => by simp [create_translation_stream, h1, h2],
    fun h1 h2 => by simp [create_translation_stream, h1, h2]⟩

/-- Witness for `c9_language_code_validation` at the codes `"en-US"`, `"xyz"`
    (invalid), `"es"` and `"fr"`. -/
theorem c9_language_code_validation_witness :
    (is_valid_language_code "en-US" = true ↔ specLangShape "en-US" = true)
      ∧ (is_valid_language_code "xyz" = false →
          create_transcription_stream "xyz"
            = Except.error ("Invalid language code: " ++ "xyz"))
      ∧ (is_valid_language_code "xyz" = true →
          create_transcription_stream "xyz" = Except.ok ("transcription:" ++ "xyz"))
      ∧ (is_valid_language_code "es" = false →
          create_translation_stream "es" "fr"
            = Except.error ("Invalid source language code: " ++ "es"))
      ∧ (is_valid_language_code "es" = true → is_valid_language_code "fr" = false →
          create_translation_stream "es" "fr"
            = Except.error ("Invalid target language code: " ++ "fr"))
      ∧ (is_valid_language_code "es" = true → is_valid_language_code "fr" = true →
          create_translation_stream "es" "fr"
            = Except.ok ("translation:" ++ "es" ++ ":" ++ "fr")) :=
  c9_language_code_validation "en-US" "xyz" "es" "fr"

/- ### Lemmas about the transcription slot -/

theorem temShape_step (s : TEMState) (hs : temShape s) (c : String × Nat) :
    temShape (stepTranscription s c) := by
  rcases hval : is_valid_language_code c.1 with _ | _
  · simpa [stepTranscription, on_transcription_for_language, hval] using hs
  · have hcts : create_transcription_stream c.1
        = Except.ok ("transcription:" ++ c.1) := by
      simp [create_transcription_stream, hval]
    rcases hs with ⟨h1, h2⟩ | ⟨e, hh, h1, h2⟩
    · right
      refine ⟨"transcription:" ++ c.1, c.2, ?_, ?_⟩ <;>
        simp [stepTranscription, on_transcription_for_language, hval, h1, h2,
          hcts, add_handler, dictGet, dictSet]
    · right
      have hclean : cleanup ([(e, [hh])] : Map Nat) e hh = [] := by
        simp [cleanup, dictMem, dictGet, removeFirst, dictSet, dictDel]
      refine ⟨"transcription:" ++ c.1, c.2, ?_, ?_⟩ <;>
        simp [stepTranscription, on_transcription_for_language, hval, h1, h2,
          hcts, hclean, add_handler, dictGet, dictSet]

theorem temShape_run (calls : List (String × Nat)) :
    temShape (runTranscriptionCalls calls) := by
  induction calls using List.reverseRecOn with
  | nil => exact Or.inl ⟨rfl, rfl⟩
  | append_singleton cs c ih =>
    have : runTranscriptionCalls (cs ++ [c])
        = stepTranscription (runTranscriptionCalls cs) c := by
      simp [runTranscriptionCalls, List.foldl_append]
    rw [this]
    exact temShape_step _ ih c

theorem transcriptionHandlerCount_le_one_of_shape {s : TEMState}
    (hs : temShape s) : transcriptionHandlerCount s.handlers ≤ 1 := by
  rcases hs with ⟨h1, _⟩ | ⟨e, hh, h1, _⟩
  · simp [transcriptionHandlerCount, h1]
  · rcases hsw : e.startsWith "transcription:" with _ | _ <;>
      simp [transcriptionHandlerCount, h1, hsw, List.filter]

/-- Claim C6: `on_transcription_for_language` with a malformed language code
    raises a validation error synchronously and leaves the manager state
    (handler map and stored previous transcription binding) unchanged; with a
    valid code it installs the new handler as the stored binding, having torn
    down the previous one, so after any sequence of such calls at most one
    transcription handler is registered across all transcription event
    types. -/
theorem c6_transcription_single_slot (s : TEMState) (lang : String) (h : Nat)
    (calls : List (String × Nat)) :
    (is_valid_language_code lang = false →
        on_transcription_for_language s lang h
          = (s, Except.error ("Invalid language code: " ++ lang)))
      ∧ (is_valid_language_code lang = true →
          (on_transcription_for_language s lang h).1.last_transcription_cleanup
            = some ("transcription:" ++ lang, h))
      ∧ transcriptionHandlerCount (runTranscriptionCalls calls).handlers ≤ 1 := by
  refine ⟨fun hval => by simp [on_transcription_for_language, hval],
    fun hval => ?_,
    transcriptionHandlerCount_le_one_of_shape (temShape_run calls)⟩
  have hcts : create_transcription_stream lang
      = Except.ok ("transcription:" ++ lang) := by
    simp [create_transcription_stream, hval]
  rcases hlast : s.last_transcription_cleanup with _ | ⟨e, hh⟩ <;>
    simp [on_transcription_for_language, hval, hlast, hcts]

/-- Witness for `c6_transcription_single_slot`: the malformed code `"xyz"`
    fails and changes nothing, a valid rebinding installs its token, and a
    two-call history keeps at most one transcription handler. -/
theorem c6_transcription_single_slot_witness :
    on_transcription_for_language emptyTEM "xyz" 0
        = (emptyTEM, Except.error ("Invalid language code: " ++ "xyz"))
      ∧ (on_transcription_for_language emptyTEM "en-US" 1).1.last_transcription_cleanup
        = some ("transcription:" ++ "en-US", 1)
      ∧ transcriptionHandlerCount
          (runTranscriptionCalls [("es-ES", 0), ("en-US", 1)]).handlers ≤ 1 :=
  ⟨(c6_transcription_single_slot emptyTEM "xyz" 0 []).1 (by decide),
    (c6_transcription_single_slot emptyTEM "en-US" 1 []).2.1 (by decide),
    (c6_transcription_single_slot emptyTEM "en" 0 [("es-ES", 0), ("en-US", 1)]).2.2⟩

/-- Claim C3: after disposal every tracking call would fail immediately and
    leave all internal collections unchanged.  The code violates this:
    `track_task` has no disposed check at all — it silently records the task
    and returns it — and `track_timer` appends the timer handle to `_timers`
    before the delegated `track` call raises. -/
theorem c3_post_disposal_tracking_not_rejected :
    (track_task (dispose newResourceTracker).1 7).2 = Except.ok 7
      ∧ (track_task (dispose newResourceTracker).1 7).1.tasks = [7]
      ∧ (track_timer (dispose newResourceTracker).1 3).2
          = Except.error "ResourceTracker has been disposed"
      ∧ (track_timer (dispose newResourceTracker).1 3).1.timers = [3] :=
  ⟨rfl, rfl, rfl, rfl⟩

/-- Claim C7: after a first disposal call of either kind, any subsequent
    disposal call of either kind returns the state unchanged and performs no
    effect at all — no timer or task is cancelled and no cleanup action runs
    again, so cleanup actions run at most once in total. -/
theorem c7_disposal_idempotent (s : ResourceTracker) :
    dispose (dispose s).1 = ((dispose s).1, [])
      ∧ dispose_async (dispose s).1 = ((dispose s).1, [])
      ∧ dispose (dispose_async s).1 = ((dispose_async s).1, [])
      ∧ dispose_async (dispose_async s).1 = ((dispose_async s).1, []) := by
  rcases hd : s.disposed with _ | _ <;>
    simp [dispose, dispose_async, hd]

/- ### Lemmas about the interval transition system -/

theorem intervalRun_frozen_of_cancelled (cb : Nat → Bool) (evs : List IntervalEv) :
    ∀ s : IntervalState, s.cancelled = true →
      (intervalRun cb s evs).cancelled = true
        ∧ (intervalRun cb s evs).execs = s.execs := by
  induction evs with
  | nil => exact fun s hs => ⟨hs, rfl⟩
  | cons e t ih =>
    intro s hs
    have hstep : (intervalStep cb s e).cancelled = true
        ∧ (intervalStep cb s e).execs = s.execs := by
      cases e with
      | cancel => exact ⟨rfl, rfl⟩
      | fire =>
        rcases hp : s.pending with _ | _ <;> simp [intervalStep, hp, hs]
    have hrun : intervalRun cb s (e :: t) = intervalRun cb (intervalStep cb s e) t :=
      rfl
    have htail := ih (intervalStep cb s e) hstep.1
    rw [hrun]
    exact ⟨htail.1, htail.2.trans hstep.2⟩

/-- Claim C8: once the interval's cancellation function has been invoked —
    whether from outside or from within a firing, i.e. by the user callback
    itself — the user callback is never executed again: the execution count
    stays frozen over every continuation of the event sequence. -/
theorem c8_interval_cancelled_never_fires (cb : Nat → Bool)
    (evs1 evs2 : List IntervalEv)
    (hc : (intervalRun cb intervalInit evs1).cancelled = true) :
    (intervalRun cb intervalInit (evs1 ++ evs2)).execs
      = (intervalRun cb intervalInit evs1).execs := by
  have happ : intervalRun cb intervalInit (evs1 ++ evs2)
      = intervalRun cb (intervalRun cb intervalInit evs1) evs2 := by
    simp [intervalRun, List.foldl_append]
  rw [happ]
  exact (intervalRun_frozen_of_cancelled cb evs2 _ hc).2

/-- Witness for `c8_interval_cancelled_never_fires`: the user callback
    cancels the interval during its first execution (a firing in flight);
    two further scheduler firings execute it no more. -/
theorem c8_interval_cancelled_never_fires_witness :
    (intervalRun (fun _ => true) intervalInit [IntervalEv.fire]).cancelled = true
      ∧ (intervalRun (fun _ => true) intervalInit
            ([IntervalEv.fire] ++ [IntervalEv.fire, IntervalEv.fire])).execs
        = (intervalRun (fun _ => true) intervalInit [IntervalEv.fire]).execs :=
  ⟨rfl, c8_interval_cancelled_never_fires (fun _ => true) [IntervalEv.fire]
    [IntervalEv.fire, IntervalEv.fire] rfl⟩

/- ### Lemmas about custom-message dispatch -/

theorem registerCustomHandlers_from (rs : List (String × Nat)) :
    ∀ l : List (String × Nat),
      rs.foldl (fun m r => on_custom_message m r.1 r.2) [("custom_message", l)]
        = [("custom_message", l ++ rs)] := by
  induction rs with
  | nil => intro l; simp
  | cons r t ih =>
    intro l
    have hstep : on_custom_message [("custom_message", l)] r.1 r.2
        = [("custom_message", l ++ [(r.1, r.2)])] := by
      simp [on_custom_message, add_handler, dictGet, dictSet]
    simp only [List.foldl_cons, hstep, ih]
    simp

theorem filterMap_message_handler (rs : List (String × Nat)) (msg : CustomMessage) :
    rs.filterMap (fun r => message_handler r.1 r.2 msg)
      = (rs.filter (fun r => r.1 == msg.action)).map (fun r => (r.2, msg.payload)) := by
  induction rs with
  | nil => rfl
  | cons r t ih =>
    rw [List.filterMap_cons, List.filter_cons]
    rcases hb : (r.1 == msg.action) with _ | _
    · have ha : ¬(msg.action = r.1) := fun he => by simp [he] at hb
      have hhead : message_handler r.1 r.2 msg = none := by
        simp [message_handler, ha]
      rw [hhead]
      simp [ih]
    · have ha : msg.action = r.1 := (beq_iff_eq.mp hb).symm
      have hhead : message_handler r.1 r.2 msg = some (r.2, msg.payload) := by
        simp [message_handler, ha]
      rw [hhead]
      simp [ih]

/-- Claim C10: delivering a `CustomMessage` to a manager on which the given
    sequence of `on_custom_message(action, handler)` registrations was made
    invokes exactly the handlers whose registered action equals the message's
    `action` field, in registration order, each receiving the message's
    `payload` field; handlers for different actions coexist. -/
theorem c10_custom_message_dispatch (rs : List (String × Nat)) (msg : CustomMessage) :
    emitCustomMessage (registerCustomHandlers rs) msg
      = (rs.filter (fun r => r.1 == msg.action)).map (fun r => (r.2, msg.payload)) := by
  cases rs with
  | nil => rfl
  | cons r t =>
    have h0 : on_custom_message [] r.1 r.2 = [("custom_message", [(r.1, r.2)])] := by
      simp [on_custom_message, add_handler, dictGet, dictSet]
    have hbuild : registerCustomHandlers (r :: t) = [("custom_message", r :: t)] := by
      have := registerCustomHandlers_from t [(r.1, r.2)]
      simpa [registerCustomHandlers, List.foldl_cons, h0] using this
    rw [hbuild]
    have hm : dictMem [("custom_message", r :: t)] "custom_message" = true := by
      simp [dictMem]
    have hg : dictGet [("custom_message", r :: t)] "custom_message" = r :: t := by
      simp [dictGet]
    rw [emitCustomMessage, hm]
    simp only [Bool.true_eq_false, if_false, hg]
    exact filterMap_message_handler (r :: t) msg

end MentraSDK
